import Mathlib

/-!
# Verification of the mrT append-only transactional log

A shallow embedding of the mrT transactional log (package `mrT`) and
proofs about its specification claims.  Bytes are modelled as `Nat` (with
byte-ness hypotheses where it matters), byte strings as `List Nat`, and
fallible operations return `Option`/`Except`.  Each definition is
translated from the corresponding Go function of the current (cfile-based)
revision of `mrT.go` and its companion files — the `filter`/`Match` state
machine, the `exporter`, the final `txnForEacher` revision, and the
utilities.  External collaborators (the UUID generator, the `shasher` MAC,
the seeker's line framing) are modelled from the spec's contracts for them,
as flagged in the corresponding doc comments.  Definitions come first,
then the theorems about them.
-/

namespace MrT

/-- Equality of `Except` results is decidable componentwise (used to
evaluate concrete runs of the models). -/
instance {ε α : Type} [DecidableEq ε] [DecidableEq α] :
    DecidableEq (Except ε α) := fun a b =>
  match a, b with
  | .ok x, .ok y =>
      if h : x = y then .isTrue (by rw [h])
      else .isFalse (by intro he; cases he; exact h rfl)
  | .error x, .error y =>
      if h : x = y then .isTrue (by rw [h])
      else .isFalse (by intro he; cases he; exact h rfl)
  | .ok _, .error _ => .isFalse (by intro he; cases he)
  | .error _, .ok _ => .isFalse (by intro he; cases he)

/-- Error kinds surfaced by the log engine, translated from the error
constants of `mrT.go` (`ErrInvalidLine`, `ErrNoTxn`, `ErrInvalidTxn`),
`errors.ErrIsClosed` from the toolkit, the MAC mismatch failure of the
shasher parse, and a generic wrapped I/O error. -/
inductive GoErr
  | invalidLine
  | noTxn
  | invalidTxn
  | isClosed
  | macMismatch
  | ioErr
  deriving DecidableEq, Repr

/-- Line-type tags as laid down in the `const` block of `mrT.go` (current
revision): `NilLine = 0`, `TransactionLine = 1`, `ReplayLine = 2`,
`CommentLine = 3`, `PutLine = 4`, `DeleteLine = 5`. -/
def TransactionLineTag : Nat := 1

def ReplayLineTag : Nat := 2

def CommentLineTag : Nat := 3

def PutLineTag : Nat := 4

def DeleteLineTag : Nat := 5

/-- From `binary.LittleEndian.PutUint64`: the 8 little-endian bytes of `n`
(`n` is a Go `uint64`, so the caller guarantees `n < 2^64`). -/
def le64 (n : Nat) : List Nat :=
  [n % 256, n / 256 % 256, n / 256 ^ 2 % 256, n / 256 ^ 3 % 256,
   n / 256 ^ 4 % 256, n / 256 ^ 5 % 256, n / 256 ^ 6 % 256, n / 256 ^ 7 % 256]

/-- From `binary.LittleEndian.Uint64` applied to a slice of at least 8 bytes:
assembles the first 8 entries little-endian.  (Go panics on a shorter
slice; every caller in the source guards the length first, so the
catch-all branch is never reached on guarded inputs.) -/
def de64 (b : List Nat) : Nat :=
  match b with
  | b0 :: b1 :: b2 :: b3 :: b4 :: b5 :: b6 :: b7 :: _ =>
      b0 + 256 * b1 + 256 ^ 2 * b2 + 256 ^ 3 * b3 + 256 ^ 4 * b4 +
        256 ^ 5 * b5 + 256 ^ 6 * b6 + 256 ^ 7 * b7
  | _ => 0

/-- From `MrT.writeBytes` (mrT.go): writes the 8-byte little-endian length of `b`
followed by `b` itself. -/
def writeBytes (b : List Nat) : List Nat :=
  le64 b.length ++ b

/-- From `MrT.writeRawBytes` (mrT.go): length-prefixed key followed by
length-prefixed value; this is the raw (pre-middleware) data payload. -/
def writeRawBytes (key value : List Nat) : List Nat :=
  writeBytes key ++ writeBytes value

/-- From `getKV` (utilities.go, bounds-checked revision).  `none` models an
out-of-range slice access (a Go panic when `cap(b) = len(b)`); `some (k, v)`
models a normal return.  Each guard mirrors one `if blen < …` check of the
source, in order. -/
def getKV (b : List Nat) : Option (List Nat × List Nat) :=
  -- idx := 8; blen := len(b); if blen < idx { return }
  if b.length < 8 then some ([], [])
  -- lv := Uint64(b[0:idx]); if blen < idx+lv { return }
  else if b.length < 8 + de64 (b.take 8) then some ([], [])
  -- key = b[idx : lv+idx]; idx += lv; if blen < idx { return }
  else if b.length < 8 + de64 (b.take 8) then
    some ((b.drop 8).take (de64 (b.take 8)), [])
  -- lv = Uint64(b[idx : idx+8]) — unchecked: out of range if idx+8 > len(b)
  else if b.length < 8 + de64 (b.take 8) + 8 then none
  -- idx += 8; if blen < lv+idx { return }
  else if b.length <
      de64 ((b.drop (8 + de64 (b.take 8))).take 8) + (8 + de64 (b.take 8) + 8) then
    some ((b.drop 8).take (de64 (b.take 8)), [])
  -- value = b[idx : lv+idx]
  else
    some ((b.drop 8).take (de64 (b.take 8)),
      (b.drop (8 + de64 (b.take 8) + 8)).take
        (de64 ((b.drop (8 + de64 (b.take 8))).take 8)))

/-- A middleware chain: a symmetric byte transform applied to data payloads
(`enc` for the writer side, `dec` for the reader side). -/
structure Mw where
  enc : List Nat → List Nat
  dec : List Nat → List Nat

/-- From `MrT.isMWWrite` (mrT.go): middleware applies only when a chain is set
and the line is a Put or Delete line. -/
def isMWWrite (mw : Option Mw) (lineType : Nat) : Bool :=
  match mw with
  | none => false
  | some _ => lineType = PutLineTag ∨ lineType = DeleteLineTag

/-- From `MrT.writeMWBytes` (mrT.go): the two length-prefixed fields are pushed
through the middleware writer, whose close emits the encoded form. -/
def writeMWBytes (mw : Mw) (key value : List Nat) : List Nat :=
  mw.enc (writeBytes key ++ writeBytes value)

/-- From `MrT.writeLine` (mrT.go): tag byte, then the payload (raw fast path
unless `isMWWrite`), then the `\n` terminator. -/
def writeLine (mw : Option Mw) (lineType : Nat) (key value : List Nat) : List Nat :=
  lineType ::
    (if isMWWrite mw lineType then writeMWBytes (mw.getD ⟨id, id⟩) key value
     else writeRawBytes key value) ++ [10]

/-- One `Txn` handle call made by the caller's callback (`Txn.Put` /
`Txn.Delete` in txn.go). -/
inductive TxnOp
  | put (key value : List Nat)
  | del (key : List Nat)
  deriving DecidableEq, Repr

/-- The bytes a handle call appends to the scratch buffer (`Txn.Put` writes
a `PutLine`, `Txn.Delete` a `DeleteLine` with nil value). -/
def txnOpBytes (mw : Option Mw) : TxnOp → List Nat
  | .put k v => writeLine mw PutLineTag k v
  | .del k => writeLine mw DeleteLineTag k []

/-- From `MrT.Txn` (mrT.go).  State threads `active` (bytes of the active file),
`ltxn` (the last-txn-id cell) and the `closed` flag; the callback is
characterised by the ops it issues and the error it returns (`fnErr = none`
means the callback returned nil).  Returns the call's result together with
the new `(active, ltxn)` pair. -/
def txnGo (mw : Option Mw) (active : List Nat) (ltxn : List Nat)
    (closed : Bool) (txnID : List Nat) (ops : List TxnOp)
    (fnErr : Option GoErr) : Except GoErr Unit × List Nat × List Nat :=
  if closed then (.error .isClosed, active, ltxn)
  else
    -- lbuf.Update: scratch buffer gets the Transaction line then the ops
    match fnErr with
    | some e =>
        -- fn returned an error: the appender is never written, the buffer
        -- is reset by lbuf.Update, ltxn.Store is not reached
        (.error e, active, ltxn)
    | none =>
        (.ok (),
          active ++ (writeLine mw TransactionLineTag txnID [] ++
            (ops.map (txnOpBytes mw)).flatten),
          txnID)

/-- One log line: Transaction, Replay, Comment, Put, Delete, or a line with
an unknown tag. -/
inductive Line
  | txnL (key : List Nat)
  | replayL (key : List Nat)
  | commentL (key : List Nat)
  | putL (key value : List Nat)
  | delL (key : List Nat)
  | badL (tag : Nat)
  deriving DecidableEq, Repr

/-- The tag byte of a line (`getLineType` / the first `ReadByte`). -/
def Line.tag : Line → Nat
  | .txnL _ => TransactionLineTag
  | .replayL _ => ReplayLineTag
  | .commentL _ => CommentLineTag
  | .putL _ _ => PutLineTag
  | .delL _ => DeleteLineTag
  | .badL t => t

/-- The key field of a line (`getKey` on the payload). -/
def Line.key : Line → List Nat
  | .txnL k => k
  | .replayL k => k
  | .commentL k => k
  | .putL k _ => k
  | .delL k => k
  | .badL _ => []

/-- Holds iff the line is a Transaction or Replay line. -/
def Line.isAnchor : Line → Bool
  | .txnL _ => true
  | .replayL _ => true
  | _ => false

/-- Holds iff the line's tag is one of the five known tags (the `default:`
branch of the source switches is not taken). -/
def Line.valid : Line → Bool
  | .badL _ => false
  | _ => true

/-- From `forEachState` (forEacher file). -/
inductive FEState
  | preMatch
  | matchSt
  | postMatch
  deriving DecidableEq, Repr

/-- From `Match`: target transaction id plus match state. -/
structure Match where
  tid : List Nat
  state : FEState
  deriving DecidableEq, Repr

/-- From `NewMatch`: initial state is PostMatch iff `tid == ""`, else the
zero value PreMatch. -/
def NewMatch (tid : List Nat) : Match :=
  { tid := tid, state := if tid = [] then .postMatch else .preMatch }

/-- From `Match.Filter`: one filter step on one line.  Returns the updated
filter, whether the line passes (`ok`), and an error for unknown tags.
Fast path: in PostMatch every line passes untouched. -/
def Match.Filter (m : Match) (l : Line) : Match × Bool × Option GoErr :=
  if m.state = .postMatch then (m, true, none)
  else
    match l with
    | .txnL k | .replayL k =>
        match m.state with
        | .preMatch =>
            if m.tid = k then ({ m with state := .matchSt }, false, none)
            else (m, false, none)
        | .matchSt =>
            ({ m with state := .postMatch }, true, none)
        | .postMatch => (m, true, none)
    | .putL _ _ => (m, false, none)
    | .delL _ => (m, false, none)
    | .commentL _ => (m, false, none)
    | .badL _ => (m, false, some .invalidLine)

/-- From `filter.processLine` driven by `seeker.ReadLines` with a pure
collecting callback: runs the match filter over the lines, collecting the
lines handed to `fn`; stops with an error when a filter step reports one
(`!ok` with non-nil error aborts the iteration). -/
def runMatch (m : Match) : List Line → List Line × Match × Option GoErr
  | [] => ([], m, none)
  | l :: ls =>
      match Match.Filter m l with
      | (m', true, _) =>
          let r := runMatch m' ls
          (l :: r.1, r.2)
      | (m', false, none) => runMatch m' ls
      | (_, false, some e) => ([], m, some e)

/-- From `MrT.processLine` (mrT.go): decode one line into
`(lineType, key, value)`.  Transaction/Comment/Replay payloads are decoded
raw; Put/Delete payloads go through `getProcessedKV` (middleware reader
then `getKV`) — at this level, the spec's symmetric-transform contract
makes the reader the inverse of the writer, so the decoded fields are the
line's own.  Unknown tags yield `ErrInvalidLine`. -/
def processLine : Line → Except GoErr (Nat × List Nat × List Nat)
  | .txnL k => .ok (TransactionLineTag, k, [])
  | .commentL k => .ok (CommentLineTag, k, [])
  | .replayL k => .ok (ReplayLineTag, k, [])
  | .putL k v => .ok (PutLineTag, k, v)
  | .delL k => .ok (DeleteLineTag, k, [])
  | .badL _ => .error .invalidLine

/-- From `replayID` (utilities): the key of the file's first line when that line
is a Replay line; `none` models both the read error on an empty file and
the `ErrNoTxn` for a non-Replay first line. -/
def replayID : List Line → Option (List Nat)
  | .replayL k :: _ => some k
  | _ => none

/-- From `nextTxn` (utilities), key part: the key of the first Transaction line
at or after the cursor; `none` models `ErrNoTxn`. -/
def nextTxnKey : List Line → Option (List Nat)
  | [] => none
  | .txnL k :: _ => some k
  | _ :: ls => nextTxnKey ls

/-- From `nextTxn` (utilities), cursor part: after a successful `nextTxn` the
cursor sits at the beginning of the found Transaction line, so the rest of
the file is the suffix starting with that line. -/
def nextTxnSuffix : List Line → Option (List Line)
  | [] => none
  | .txnL k :: ls => some (.txnL k :: ls)
  | _ :: ls => nextTxnSuffix ls

/-- The `peekFirstTxn` / `ParseStr` / timestamp-comparison tail of
`isInCurrent` (mrT.go): fetch the first transaction id, parse both ids,
and compare embedded times; any failure reports `false`. -/
def isInCurrentTail (pt : List Nat → Option Nat) (active : List Line)
    (txnID : List Nat) : Bool :=
  match nextTxnKey active with
  | none => false
  | some ptid =>
      match pt txnID with
      | none => false
      | some ru =>
          match pt ptid with
          | none => false
          | some pu => if pu ≤ ru then true else false

/-- From `MrT.isInCurrent` (mrT.go): `tid == ""`, or `tid` equals the active
file's leading Replay id, or `tid` parses and its embedded time is at or
after that of the first Transaction id of the active file.  `pt` models
`uuid.ParseStr` composed with `.Time()` (the UUID generator is an external
collaborator; the spec only fixes that ids are time-ordered). -/
def isInCurrent (pt : List Nat → Option Nat) (active : List Line)
    (txnID : List Nat) : Bool :=
  if txnID = [] then true
  else
    match replayID active with
    | some rtid =>
        if rtid = txnID then true else isInCurrentTail pt active txnID
    | none => isInCurrentTail pt active txnID

/-- From `filter.processLine` composed with `MrT.ForEach`'s callback: the match
filter runs first; a passed line is decoded by `processLine` and delivered;
a decoding error aborts the iteration. -/
def runProcess (m : Match) :
    List Line → List (Nat × List Nat × List Nat) × Match × Option GoErr
  | [] => ([], m, none)
  | l :: ls =>
      match Match.Filter m l with
      | (m', true, _) =>
          match processLine l with
          | .ok t =>
              let r := runProcess m' ls
              (t :: r.1, r.2)
          | .error e => ([], m', some e)
      | (m', false, none) => runProcess m' ls
      | (m', false, some e) => ([], m', some e)

/-- From `MrT.filter` (mrT.go): when `archive` is requested and `tid` is not in
the current file, scan the archive first, then — only if a transaction
exists after the replay point — scan the active file from its first
Transaction line on, with the filter state persisting across the boundary.
Otherwise scan only the active file from the start.  `runner` abstracts the
`FilterFn` the caller supplied (decoded, raw, …). -/
def filterCore {α : Type} (runner : Match → List Line → List α × Match × Option GoErr)
    (pt : List Nat → Option Nat) (archiveL activeL : List Line)
    (txnID : List Nat) (archiveFlag : Bool) : List α × Option GoErr :=
  if archiveFlag ∧ ¬isInCurrent pt activeL txnID then
    match runner (NewMatch txnID) archiveL with
    | (out1, f1, none) =>
        match nextTxnSuffix activeL with
        | none => (out1, none)
        | some suf =>
            let r := runner f1 suf
            (out1 ++ r.1, r.2.2)
    | (out1, _, some e) => (out1, some e)
  else
    let r := runner (NewMatch txnID) activeL
    (r.1, r.2.2)

/-- From `MrT.Filter` (mrT.go): the closed check, the silent no-op when `tid`
equals the current last-txn id, then `MrT.filter`. -/
def mrTFilter {α : Type} (runner : Match → List Line → List α × Match × Option GoErr)
    (pt : List Nat → Option Nat) (archiveL activeL : List Line)
    (ltxn : List Nat) (closed : Bool) (txnID : List Nat)
    (archiveFlag : Bool) : List α × Option GoErr :=
  if closed then ([], some .isClosed)
  else if txnID ≠ [] ∧ txnID = ltxn then ([], none)
  else filterCore runner pt archiveL activeL txnID archiveFlag

/-- From `MrT.ForEach` (mrT.go): `Filter` with a `NewMatch` filter and a
decoded-line callback. -/
def forEachGo (pt : List Nat → Option Nat) (archiveL activeL : List Line)
    (ltxn : List Nat) (closed : Bool) (txnID : List Nat)
    (archiveFlag : Bool) : List (Nat × List Nat × List Nat) × Option GoErr :=
  mrTFilter runProcess pt archiveL activeL ltxn closed txnID archiveFlag

/-- From `MrT.ForEachRaw` (mrT.go): `Filter` with a `NewMatch` filter and a
raw-line callback (the line is handed over undecoded). -/
def forEachRawGo (pt : List Nat → Option Nat) (archiveL activeL : List Line)
    (ltxn : List Nat) (closed : Bool) (txnID : List Nat)
    (archiveFlag : Bool) : List Line × Option GoErr :=
  mrTFilter (fun m ls => runMatch m ls) pt archiveL activeL ltxn closed
    txnID archiveFlag

/-- From `TxnInfo` (decoded): transaction id, timestamp derived from the id, and
the ordered action list; an action is `(isPut, key, value)`
(`ActionInfo`). -/
structure TxnInfoL where
  id : List Nat
  ts : Nat
  actions : List (Bool × List Nat × List Nat)
  deriving DecidableEq, Repr

/-- From `txnForEacher`: target id, current aggregate, match state. -/
structure TxnFE where
  tid : List Nat
  ti : Option TxnInfoL
  state : FEState
  deriving DecidableEq, Repr

/-- From `newTxnForEacher`. -/
def newTxnForEacher (tid : List Nat) : TxnFE :=
  { tid := tid, ti := none,
    state := if tid = [] then .postMatch else .preMatch }

/-- From `txnForEacher.flush`: emit the accumulated aggregate, if any, and clear
it (the callback's return value is ignored by the source). -/
def TxnFE.flush (fe : TxnFE) : TxnFE × List TxnInfoL :=
  match fe.ti with
  | none => (fe, [])
  | some ti => ({ fe with ti := none }, [ti])

/-- From `txnForEacher.processLine` (final revision): Transaction and Replay
lines first flush, then drive the match state, then open a fresh aggregate
keyed by the line's key (unless still PreMatch, or the id fails to parse —
the parse failure is only logged).  Comment lines are ignored.  Put/Delete
lines append an action to the current aggregate when one is open and the
state is PostMatch.  Unknown tags yield `ErrInvalidLine`. -/
def txnProcessLine (pt : List Nat → Option Nat) (fe : TxnFE) (l : Line) :
    TxnFE × List TxnInfoL × Option GoErr :=
  match l with
  | .txnL k | .replayL k =>
      let f := fe.flush
      if f.1.state = .preMatch then
        if f.1.tid = k then ({ f.1 with state := .matchSt }, f.2, none)
        else (f.1, f.2, none)
      else
        let fe2 := if f.1.state = .matchSt then { f.1 with state := .postMatch }
          else f.1
        match pt k with
        | none => (fe2, f.2, none)
        | some ts => ({ fe2 with ti := some ⟨k, ts, []⟩ }, f.2, none)
  | .commentL _ => (fe, [], none)
  | .putL k v =>
      match fe.ti with
      | none => (fe, [], none)
      | some ti =>
          if fe.state ≠ .postMatch then (fe, [], none)
          else ({ fe with ti := some { ti with actions := ti.actions ++ [(true, k, v)] } },
            [], none)
  | .delL k =>
      match fe.ti with
      | none => (fe, [], none)
      | some ti =>
          if fe.state ≠ .postMatch then (fe, [], none)
          else ({ fe with ti := some { ti with actions := ti.actions ++ [(false, k, [])] } },
            [], none)
  | .badL _ => (fe, [], some .invalidLine)

/-- From `seeker.ReadLines` over `txnForEacher.processLine`: fold the processor
over the lines, concatenating flushed aggregates, stopping on error. -/
def runTxnFE (pt : List Nat → Option Nat) (fe : TxnFE) :
    List Line → TxnFE × List TxnInfoL × Option GoErr
  | [] => (fe, [], none)
  | l :: ls =>
      match txnProcessLine pt fe l with
      | (fe', out, none) =>
          let r := runTxnFE pt fe' ls
          (r.1, out ++ r.2.1, r.2.2)
      | (fe', out, some e) => (fe', out, some e)

/-- From `MrT.ForEachTxn` (mrT.go): closed check; optional archive pass (with a
flush and a forced Match state at the boundary); active-file pass; final
flush. -/
def forEachTxnGo (pt : List Nat → Option Nat) (archiveL activeL : List Line)
    (closed : Bool) (txnID : List Nat) (archiveFlag : Bool) :
    List TxnInfoL × Option GoErr :=
  if closed then ([], some .isClosed)
  else
    let fe0 := newTxnForEacher txnID
    if archiveFlag ∧ ¬isInCurrent pt activeL txnID then
      match runTxnFE pt fe0 archiveL with
      | (fe1, out1, none) =>
          let f := fe1.flush
          let fe2 : TxnFE := { f.1 with state := .matchSt }
          match runTxnFE pt fe2 activeL with
          | (fe3, out2, none) =>
              let g := fe3.flush
              (out1 ++ f.2 ++ out2 ++ g.2, none)
          | (_, out2, some e) => (out1 ++ f.2 ++ out2, some e)
      | (_, out1, some e) => (out1, some e)
    else
      match runTxnFE pt fe0 activeL with
      | (fe3, out2, none) =>
          let g := fe3.flush
          (out2 ++ g.2, none)
      | (_, out2, some e) => (out2, some e)

/-! ## Comment lines and middleware (C9) -/

/-- From `getProcessedKV` (forEacher file) at the byte level: an installed
middleware chain's reader decodes the payload before `getKV`; otherwise the
payload is decoded directly. -/
def getProcessedKV (mw : Option Mw) (payload : List Nat) :
    Option (List Nat × List Nat) :=
  match mw with
  | none => getKV payload
  | some w => getKV (w.dec payload)

/-- From `MrT.processLine` (mrT.go) at the byte level: first byte is the tag;
Transaction, Comment and Replay payloads are decoded with the raw `getKV`;
Put and Delete payloads go through `getProcessedKV`; unknown tags yield
`ErrInvalidLine`.  The outer `none` propagates an out-of-range `getKV`
access. -/
def processLineBytes (mw : Option Mw) (raw : List Nat) :
    Option (Except GoErr (Nat × List Nat × List Nat)) :=
  match raw with
  | [] => some (.error .ioErr)
  | t :: payload =>
      if t = TransactionLineTag ∨ t = CommentLineTag ∨ t = ReplayLineTag then
        (getKV payload).map fun kv => .ok (t, kv.1, kv.2)
      else if t = PutLineTag ∨ t = DeleteLineTag then
        (getProcessedKV mw payload).map fun kv => .ok (t, kv.1, kv.2)
      else some (.error .invalidLine)

/-- From `MrT.LastTxn` (mrT.go). -/
def lastTxnGo (ltxn : List Nat) (closed : Bool) : Except GoErr (List Nat) :=
  if closed then .error .isClosed else .ok ltxn

/-- From `seeker.ReadLines` over `Match.breakOnMatch`: advance the filter until
a line passes (`ErrEndEarly`), returning the suffix starting at that line
(the source then steps back one line with `PrevLine`); `none` with no error
means the scan consumed the whole file. -/
def seekScan (m : Match) : List Line → Match × Option (List Line) × Option GoErr
  | [] => (m, none, none)
  | l :: ls =>
      match Match.Filter m l with
      | (m', true, _) => (m', some (l :: ls), none)
      | (m', false, none) => seekScan m' ls
      | (m', false, some e) => (m', none, some e)

/-- From `exporter.seekToTransaction` (exporter.go): if the filter already
matched, position at the file's first Transaction line (`nextTxn`), where
an absent transaction is an error unless `txnID` is empty; otherwise scan
with `breakOnMatch`, step back one line, and fail with `ErrNoTxn` when the
filter is still PreMatch.  The returned suffix is what `io.Copy` will then
stream from the cursor. -/
def seekToTransaction (mf : Match) (lines : List Line) :
    Match × Except GoErr (List Line) :=
  if mf.state ≠ .preMatch then
    match nextTxnSuffix lines with
    | some suf => (mf, .ok suf)
    | none => if mf.tid = [] then (mf, .ok []) else (mf, .error .noTxn)
  else
    match seekScan mf lines with
    | (mf', some suf, none) => (mf', .ok suf)
    | (mf', none, none) =>
        if mf'.state = .preMatch then (mf', .error .noTxn)
        -- cursor at end of file; the unconditional PrevLine leaves it at
        -- the start of the last line
        else (mf', .ok (lines.drop (lines.length - 1)))
    | (mf', _, some e) => (mf', .error e)

/-- From `exporter.exportFrom` (exporter.go): compare the last-txn id with the
target, seek to the target transaction, then copy the rest of the file to
the signing writer. -/
def exportFrom (mf : Match) (ltxnRes : Except GoErr (List Nat))
    (lines : List Line) : Match × Except GoErr (List Line) :=
  match ltxnRes with
  | .error e => (mf, .error e)
  | .ok ltid =>
      if ltid = mf.tid then (mf, .error .noTxn)
      else seekToTransaction mf lines

/-- From `MrT.exportArchive` (mrT.go): `exportFrom` over the archive reader,
with `ErrNoTxn` rewritten to `ErrInvalidTxn`. -/
def exportArchive (mf : Match) (ltxnRes : Except GoErr (List Nat))
    (lines : List Line) : Match × Except GoErr (List Line) :=
  match exportFrom mf ltxnRes lines with
  | (mf', .error .noTxn) => (mf', .error .invalidTxn)
  | r => r

/-- From `MrT.Export` (mrT.go): the last-txn short-circuit, the archive pass
when `txnID` is empty or not in the current file, then the current-file
pass; the match state persists across the two passes. -/
def exportGo (pt : List Nat → Option Nat) (archiveL activeL : List Line)
    (ltxn : List Nat) (closed : Bool) (txnID : List Nat) :
    Except GoErr Unit × List Line :=
  if txnID ≠ [] ∧ txnID = ltxn then (.error .noTxn, [])
  else
    if txnID = [] ∨ ¬isInCurrent pt activeL txnID then
      match exportArchive (NewMatch txnID) (lastTxnGo ltxn closed) archiveL with
      | (_, .error e) => (.error e, [])
      | (mf', .ok out1) =>
          match exportFrom mf' (lastTxnGo ltxn closed) activeL with
          | (_, .error e) => (.error e, out1)
          | (_, .ok out2) => (.ok (), out1 ++ out2)
    else
      match exportFrom (NewMatch txnID) (lastTxnGo ltxn closed) activeL with
      | (_, .error e) => (.error e, [])
      | (_, .ok out2) => (.ok (), out2)

/-- Modelled from the spec: the MAC tag over `payload` under `token` —
8 bytes, keyed by the token, covering every payload byte. -/
def macTag (token payload : List Nat) : List Nat :=
  le64 ((token.sum + payload.sum) % 2 ^ 64)

/-- Modelled from the spec: `shasher.ParseWithToken` — strip the trailing
tag, recompute the MAC under the local token, and hand the verified payload
upstream; `none` is the verification failure. -/
def parseWithToken (token stream : List Nat) : Option (List Nat) :=
  if stream.length < 8 then none
  else if stream.drop (stream.length - 8) =
      macTag token (stream.take (stream.length - 8)) then
    some (stream.take (stream.length - 8))
  else none

/-- The seeker's line framing over a byte buffer: split on the `\n`
terminator (spec §4.B: `ReadLine` reads bytes up to and including the next
newline and delivers tag plus payload). -/
def splitLines (b : List Nat) : List (List Nat) :=
  if b = [] then []
  else
    (b.takeWhile (· ≠ 10)) ::
      splitLines (b.drop ((b.takeWhile (· ≠ 10)).length + 1))
termination_by b.length
decreasing_by
  rename_i h
  have hb : 0 < b.length := by
    cases b with
    | nil => exact absurd rfl h
    | cons x xs => simp
  simp only [List.length_drop]
  omega

/-- The replay loop of `MrT.Import` (mrT.go): run each verified line
through `processLine`, hand the decoded tuple to `fn`, and track the last
Transaction-or-Replay id seen.  An out-of-range `getKV` access is surfaced
as an I/O-style failure. -/
def importScan (mw : Option Mw) (lastTxn : List Nat) :
    List (List Nat) →
      List Nat × List (Nat × List Nat × List Nat) × Option GoErr
  | [] => (lastTxn, [], none)
  | raw :: rest =>
      match processLineBytes mw raw with
      | none => (lastTxn, [], some .ioErr)
      | some (.error e) => (lastTxn, [], some e)
      | some (.ok (t, k, v)) =>
          let lt := if t = TransactionLineTag ∨ t = ReplayLineTag then k
            else lastTxn
          let r := importScan mw lt rest
          (r.1, (t, k, v) :: r.2.1, r.2.2)

/-- From `MrT.Import` (mrT.go): drain the reader, verify the MAC against the
local token (`parseImportPayload`); only after verification succeeds append
the verified payload to the active file (`appendImportPayload`) and replay
it through the decoder, returning the last transaction id seen.  Returns
`(result, new active file bytes, lines delivered to fn)`. -/
def importGo (mw : Option Mw) (token active stream : List Nat) :
    Except GoErr (List Nat) × List Nat × List (Nat × List Nat × List Nat) :=
  match parseWithToken token stream with
  | none => (.error .macMismatch, active, [])
  | some payload =>
      let r := importScan mw [] (splitLines payload)
      (match r.2.2 with
       | some e => .error e
       | none => .ok r.1,
        active ++ payload, r.2.1)

/-- From `MrT.Comment` (mrT.go): closed check, then append one Comment line via
the scratch-buffer discipline. -/
def commentGo (mw : Option Mw) (active : List Nat) (closed : Bool)
    (b : List Nat) : Except GoErr Unit × List Nat :=
  if closed then (.error .isClosed, active)
  else (.ok (), active ++ writeLine mw CommentLineTag b [])

/-- The line a populate-callback op contributes (Archive writes the ops
directly after the Replay line). -/
def opLine : TxnOp → Line
  | .put k v => .putL k v
  | .del k => .delL k

/-- Copy, truncate, and reseed steps of `MrT.Archive` shared by the two
cursor cases: append the copied lines to the archive, truncate the active
file, then (if populate succeeded) reseed it with `Replay(lastTxn)` and the
populate ops. -/
def archiveFinish (archiveL : List Line) (ltxn : List Nat)
    (popOps : List TxnOp) (popErr : Option GoErr) (copied : List Line) :
    Except GoErr Unit × List Line × List Line :=
  match popErr with
  | some e => (.error e, archiveL ++ copied, [])
  | none =>
      (.ok (), archiveL ++ copied, .replayL ltxn :: popOps.map opLine)

/-- From `MrT.Archive` (mrT.go): closed check; append the active file from its
first Transaction line on to the archive (after the full scan the
unconditional `PrevLine` re-targets the last line, and fails on an empty
file); truncate the active file; write `Replay(lastTxn)` followed by the
populate callback's Put/Delete lines (populate failure leaves the file
truncated). -/
def archiveGo (archiveL activeL : List Line) (ltxn : List Nat)
    (closed : Bool) (popOps : List TxnOp) (popErr : Option GoErr) :
    Except GoErr Unit × List Line × List Line :=
  if closed then (.error .isClosed, archiveL, activeL)
  else
    match nextTxnSuffix activeL with
    | some copied => archiveFinish archiveL ltxn popOps popErr copied
    | none =>
        if activeL = [] then (.error .ioErr, archiveL, activeL)
        else archiveFinish archiveL ltxn popOps popErr
          (activeL.drop (activeL.length - 1))

/-- From `MrT.Close` (mrT.go): flip the one-shot closed flag; a second call
finds it set and returns `ErrIsClosed`. -/
def closeGo (closed : Bool) : Except GoErr Unit × Bool :=
  if closed then (.error .isClosed, closed)
  else (.ok (), true)

/-! ## Theorems -/

theorem le64_length (n : Nat) : (le64 n).length = 8 := rfl

theorem de64_le64 (n : Nat) (h : n < 2 ^ 64) : de64 (le64 n) = n := by
  show n % 256 + 256 * (n / 256 % 256) + 256 ^ 2 * (n / 256 ^ 2 % 256) +
      256 ^ 3 * (n / 256 ^ 3 % 256) + 256 ^ 4 * (n / 256 ^ 4 % 256) +
      256 ^ 5 * (n / 256 ^ 5 % 256) + 256 ^ 6 * (n / 256 ^ 6 % 256) +
      256 ^ 7 * (n / 256 ^ 7 % 256) = n
  omega

theorem de64_append (b rest : List Nat) (h : b.length = 8) :
    de64 (b ++ rest) = de64 b := by
  match b, h with
  | [a0, a1, a2, a3, a4, a5, a6, a7], _ => rfl

/-- C3: the raw (pre-middleware) data payload written by the codec for key
`k` and value `v` is exactly the 8-byte little-endian length of `k`, then
`k`, then the 8-byte little-endian length of `v`, then `v` — in total
`8 + len k + 8 + len v` bytes — and `getKV` decodes it back to exactly
`(k, v)`. -/
theorem writeRawBytes_getKV_roundtrip (k v : List Nat)
    (hk : k.length < 2 ^ 64) (hv : v.length < 2 ^ 64) :
    writeRawBytes k v = le64 k.length ++ k ++ le64 v.length ++ v ∧
    (writeRawBytes k v).length = 8 + k.length + 8 + v.length ∧
    getKV (writeRawBytes k v) = some (k, v) := by
  have heq : writeRawBytes k v = le64 k.length ++ (k ++ (le64 v.length ++ v)) := by
    simp [writeRawBytes, writeBytes]
  have hlen : (writeRawBytes k v).length = 8 + k.length + 8 + v.length := by
    rw [heq]; simp [le64_length]; omega
  have htake8 : (writeRawBytes k v).take 8 = le64 k.length := by
    rw [heq, List.take_append_of_le_length (by simp [le64_length]),
      List.take_of_length_le (by simp [le64_length])]
  have hd1 : de64 ((writeRawBytes k v).take 8) = k.length := by
    rw [htake8, de64_le64 _ hk]
  have hdrop8 : (writeRawBytes k v).drop 8 = k ++ (le64 v.length ++ v) := by
    rw [heq, List.drop_append_of_le_length (by simp [le64_length])]
    simp [le64_length]
  have hkey : ((writeRawBytes k v).drop 8).take k.length = k := by
    rw [hdrop8, List.take_append_of_le_length le_rfl, List.take_of_length_le le_rfl]
  have hdropIdx : (writeRawBytes k v).drop (8 + k.length) = le64 v.length ++ v := by
    rw [← List.drop_drop, hdrop8, List.drop_append_of_le_length le_rfl]
    simp
  have hd2 : de64 (((writeRawBytes k v).drop (8 + k.length)).take 8) = v.length := by
    rw [hdropIdx, List.take_append_of_le_length (by simp [le64_length]),
      List.take_of_length_le (by simp [le64_length]), de64_le64 _ hv]
  have hdropIdx2 : (writeRawBytes k v).drop (8 + k.length + 8) = v := by
    rw [← List.drop_drop, hdropIdx,
      List.drop_append_of_le_length (by simp [le64_length])]
    simp [le64_length]
  refine ⟨by rw [heq]; simp, by rw [hlen], ?_⟩
  unfold getKV
  rw [hd1, hlen, hd2, hkey, hdropIdx2]
  rw [if_neg (by omega), if_neg (by omega), if_neg (by omega),
    if_neg (by omega), if_neg (by omega), List.take_of_length_le le_rfl]

/-- Witness for `writeRawBytes_getKV_roundtrip` at `k = [1]`,
`v = [2, 3]`. -/
theorem writeRawBytes_getKV_roundtrip_witness :
    ([1] : List Nat).length < 2 ^ 64 ∧ ([2, 3] : List Nat).length < 2 ^ 64 ∧
    (writeRawBytes [1] [2, 3] = le64 1 ++ [1] ++ le64 2 ++ [2, 3] ∧
      (writeRawBytes [1] [2, 3]).length = 8 + 1 + 8 + 2 ∧
      getKV (writeRawBytes [1] [2, 3]) = some ([1], [2, 3])) :=
  ⟨by decide, by decide,
    writeRawBytes_getKV_roundtrip [1] [2, 3] (by decide) (by decide)⟩

/-- C4 (failing input): on the 8-byte buffer `[0,0,0,0,0,0,0,0]`
(key length 0, key empty, buffer ending right where the value-length prefix
should start) `getKV` reaches `binary.LittleEndian.Uint64(b[8:16])` with
`len(b) = 8`: the guard before it checks `blen < idx`, not `blen < idx+8`,
so the slice `b[8:16]` is out of range (a panic when `cap(b) = len(b)`),
contradicting the claim that every length prefix is bounds-checked and that
truncated input yields an empty key and value. -/
theorem getKV_value_length_out_of_range :
    getKV [0, 0, 0, 0, 0, 0, 0, 0] = none := by decide

/-- C1: if the caller's callback returns an error then `Txn` returns that
same error, appends nothing to the active file (the scratch buffer is
discarded), and leaves the last-txn-id cell unchanged — for every prior
state and every sequence of Put/Delete calls issued in the callback. -/
theorem txn_error_discards (mw : Option Mw) (active ltxn txnID : List Nat)
    (ops : List TxnOp) (e : GoErr) (hopen : closed = false) :
    txnGo mw active ltxn closed txnID ops (some e) =
      (.error e, active, ltxn) := by
  subst hopen
  simp [txnGo]

/-- Witness for `txn_error_discards` on a concrete open log, a Put and a
Delete in the callback, and an I/O error returned by the callback. -/
theorem txn_error_discards_witness :
    (false = false) ∧
    txnGo none [9, 9] [7] false [8] [.put [1] [2], .del [3]] (some .ioErr) =
      (.error .ioErr, [9, 9], [7]) :=
  ⟨rfl, txn_error_discards none [9, 9] [7] [8] [.put [1] [2], .del [3]] .ioErr rfl⟩

theorem runMatch_postMatch (tid : List Nat) (ls : List Line) :
    runMatch ⟨tid, .postMatch⟩ ls = (ls, ⟨tid, .postMatch⟩, none) := by
  induction ls with
  | nil => rfl
  | cons l ls ih => simp [runMatch, Match.Filter, ih]

/-- In PreMatch, lines that are not a Transaction/Replay line keyed `tid`
are consumed silently (provided they carry a known tag). -/
theorem runMatch_preMatch_skip (tid : List Nat) (pre rest : List Line)
    (hv : ∀ l ∈ pre, l.valid = true)
    (hm : ∀ l ∈ pre, l.isAnchor = true → l.key ≠ tid) :
    runMatch ⟨tid, .preMatch⟩ (pre ++ rest) = runMatch ⟨tid, .preMatch⟩ rest := by
  induction pre with
  | nil => rfl
  | cons l pre ih =>
      have hvl := hv l (by simp)
      have hml := hm l (by simp)
      have htl : ∀ l' ∈ pre, l'.valid = true := fun l' h => hv l' (by simp [h])
      have htm : ∀ l' ∈ pre, l'.isAnchor = true → l'.key ≠ tid :=
        fun l' h => hm l' (by simp [h])
      cases l with
      | txnL k =>
          have : tid ≠ k := fun h => hml rfl h.symm
          simp [runMatch, Match.Filter, this, ih htl htm]
      | replayL k =>
          have : tid ≠ k := fun h => hml rfl h.symm
          simp [runMatch, Match.Filter, this, ih htl htm]
      | commentL k => simp [runMatch, Match.Filter, ih htl htm]
      | putL k v => simp [runMatch, Match.Filter, ih htl htm]
      | delL k => simp [runMatch, Match.Filter, ih htl htm]
      | badL t => simp [Line.valid] at hvl

/-- In the Match state, lines other than Transaction/Replay are consumed
silently (provided they carry a known tag). -/
theorem runMatch_matchSt_skip (tid : List Nat) (mid rest : List Line)
    (hv : ∀ l ∈ mid, l.valid = true)
    (ha : ∀ l ∈ mid, l.isAnchor = false) :
    runMatch ⟨tid, .matchSt⟩ (mid ++ rest) = runMatch ⟨tid, .matchSt⟩ rest := by
  induction mid with
  | nil => rfl
  | cons l mid ih =>
      have hvl := hv l (by simp)
      have hal := ha l (by simp)
      have htl : ∀ l' ∈ mid, l'.valid = true := fun l' h => hv l' (by simp [h])
      have hta : ∀ l' ∈ mid, l'.isAnchor = false := fun l' h => ha l' (by simp [h])
      cases l with
      | txnL k => simp [Line.isAnchor] at hal
      | replayL k => simp [Line.isAnchor] at hal
      | commentL k => simp [runMatch, Match.Filter, ih htl hta]
      | putL k v => simp [runMatch, Match.Filter, ih htl hta]
      | delL k => simp [runMatch, Match.Filter, ih htl hta]
      | badL t => simp [Line.valid] at hvl

/-- C2: for a nonempty anchor id `tid` present in the log, the iteration
filter starts in PreMatch; the Transaction line keyed `tid` and the
Put/Delete lines of that transaction are never delivered; delivery begins
with the next Transaction or Replay line (which flips the filter to
PostMatch), after which every line is delivered.  With `tid = ""` the
filter starts in PostMatch and every line is delivered from the
beginning. -/
theorem match_filter_anchors (tid : List Nat) (pre mid rest : List Line)
    (r : Line) (htid : tid ≠ [])
    (hpreV : ∀ l ∈ pre, l.valid = true)
    (hpreM : ∀ l ∈ pre, l.isAnchor = true → l.key ≠ tid)
    (hmidV : ∀ l ∈ mid, l.valid = true)
    (hmidA : ∀ l ∈ mid, l.isAnchor = false)
    (hr : r.isAnchor = true) :
    (NewMatch tid).state = .preMatch ∧
    runMatch (NewMatch tid)
        (pre ++ Line.txnL tid :: mid ++ r :: rest) =
      (r :: rest, ⟨tid, .postMatch⟩, none) ∧
    (NewMatch []).state = .postMatch ∧
    ∀ ls : List Line, runMatch (NewMatch []) ls = (ls, ⟨[], .postMatch⟩, none) := by
  refine ⟨by simp [NewMatch, htid], ?_, by simp [NewMatch], ?_⟩
  · have h0 : NewMatch tid = ⟨tid, .preMatch⟩ := by simp [NewMatch, htid]
    rw [h0, List.append_assoc, List.cons_append,
      runMatch_preMatch_skip tid pre (Line.txnL tid :: (mid ++ r :: rest))
        hpreV hpreM]
    have h1 : runMatch ⟨tid, FEState.preMatch⟩
        (Line.txnL tid :: (mid ++ r :: rest)) =
        runMatch ⟨tid, FEState.matchSt⟩ (mid ++ r :: rest) := by
      simp [runMatch, Match.Filter]
    rw [h1, runMatch_matchSt_skip tid mid _ hmidV hmidA]
    cases r with
    | txnL k =>
        simp [runMatch, Match.Filter, runMatch_postMatch]
    | replayL k =>
        simp [runMatch, Match.Filter, runMatch_postMatch]
    | commentL k => simp [Line.isAnchor] at hr
    | putL k v => simp [Line.isAnchor] at hr
    | delL k => simp [Line.isAnchor] at hr
    | badL t => simp [Line.isAnchor] at hr
  · intro ls
    have h0 : NewMatch ([] : List Nat) = ⟨[], .postMatch⟩ := by simp [NewMatch]
    rw [h0, runMatch_postMatch]

/-- C6: once past the anchor (state not PreMatch), every Transaction or
Replay line processed by `ForEachTxn` first flushes the accumulated
aggregate to the callback and then opens a fresh aggregate whose id is the
line's key; in particular a Replay line met in PostMatch is delivered as a
transaction aggregate with no actions unless Put/Delete lines follow it
before the next Transaction line (in which case they are its actions). -/
theorem txn_aggregation (pt : List Nat → Option Nat) (fe : TxnFE)
    (k r t x y : List Nat) (tid : List Nat) (ts tr tt : Nat)
    (hst : fe.state ≠ .preMatch) (hk : pt k = some ts)
    (hr : pt r = some tr) (ht : pt t = some tt) :
    (txnProcessLine pt fe (.txnL k) =
        ({ fe with state := .postMatch, ti := some ⟨k, ts, []⟩ },
          fe.ti.toList, none) ∧
      txnProcessLine pt fe (.replayL k) =
        ({ fe with state := .postMatch, ti := some ⟨k, ts, []⟩ },
          fe.ti.toList, none)) ∧
    runTxnFE pt ⟨tid, none, .postMatch⟩ [.replayL r, .txnL t] =
      (⟨tid, some ⟨t, tt, []⟩, .postMatch⟩, [⟨r, tr, []⟩], none) ∧
    runTxnFE pt ⟨tid, none, .postMatch⟩ [.replayL r, .putL x y, .txnL t] =
      (⟨tid, some ⟨t, tt, []⟩, .postMatch⟩, [⟨r, tr, [(true, x, y)]⟩], none) := by
  refine ⟨⟨?_, ?_⟩, ?_, ?_⟩
  · cases fe with
    | mk ftid fti fstate =>
        cases fti <;> cases fstate <;>
          simp_all [txnProcessLine, TxnFE.flush]
  · cases fe with
    | mk ftid fti fstate =>
        cases fti <;> cases fstate <;>
          simp_all [txnProcessLine, TxnFE.flush]
  · simp [runTxnFE, txnProcessLine, TxnFE.flush, hr, ht]
  · simp [runTxnFE, txnProcessLine, TxnFE.flush, hr, ht]

/-- Witness for `txn_aggregation` with single-byte ids, `pt` reading the
id's first byte as its timestamp, and a PostMatch forEacher holding an
open aggregate. -/
theorem txn_aggregation_witness :
    ((⟨[9], some ⟨[7], 7, []⟩, .postMatch⟩ : TxnFE).state ≠ .preMatch) ∧
    (txnProcessLine (fun b => b.head?) ⟨[9], some ⟨[7], 7, []⟩, .postMatch⟩
        (.txnL [4]) =
      (⟨[9], some ⟨[4], 4, []⟩, .postMatch⟩, [⟨[7], 7, []⟩], none)) ∧
    runTxnFE (fun b => b.head?) ⟨[9], none, .postMatch⟩
        [.replayL [2], .txnL [3]] =
      (⟨[9], some ⟨[3], 3, []⟩, .postMatch⟩, [⟨[2], 2, []⟩], none) ∧
    runTxnFE (fun b => b.head?) ⟨[9], none, .postMatch⟩
        [.replayL [2], .putL [5] [6], .txnL [3]] =
      (⟨[9], some ⟨[3], 3, []⟩, .postMatch⟩, [⟨[2], 2, [(true, [5], [6])]⟩], none) := by
  have h := txn_aggregation (fun b => b.head?) ⟨[9], some ⟨[7], 7, []⟩, .postMatch⟩
    [4] [2] [3] [5] [6] [9] 4 2 3 (by decide) rfl rfl rfl
  exact ⟨by decide, h.1.1, h.2.1, h.2.2⟩

/-- C9 (counterexample): `ForEach` does deliver Comment lines.  On the log
`[Transaction [1], Comment [2]]` with an empty anchor id, the current
`ForEach` (the `Filter`/`Match` pipeline) hands the Comment line — tag 3,
key `[2]` — to the callback, contrary to the claim that a Comment line is
never delivered. -/
theorem forEach_delivers_comment :
    forEachGo (fun b => b.head?) [] [.txnL [1], .commentL [2]] [1] false [] false =
      ([(TransactionLineTag, [1], []), (CommentLineTag, [2], [])], none) ∧
    (CommentLineTag, [2], []) ∈
      (forEachGo (fun b => b.head?) [] [.txnL [1], .commentL [2]] [1] false
        [] false).1 := by
  constructor <;> decide

/-- C9 (amended): `ForEach` delivers Comment lines to its callback once the
filter is PostMatch (they are not suppressed), while `ForEachTxn` ignores
them; and the middleware chain is never applied to a Comment line's payload
— `writeLine` takes the raw fast path for the Comment tag regardless of the
installed chain, and the read path decodes a Comment payload without the
middleware reader. -/
theorem comment_lines_bypass_middleware :
    (∀ (tid c : List Nat) (ls : List Line),
      runProcess ⟨tid, .postMatch⟩ (.commentL c :: ls) =
        ((CommentLineTag, c, []) :: (runProcess ⟨tid, .postMatch⟩ ls).1,
          (runProcess ⟨tid, .postMatch⟩ ls).2)) ∧
    (∀ (pt : List Nat → Option Nat) (fe : TxnFE) (c : List Nat),
      txnProcessLine pt fe (.commentL c) = (fe, [], none)) ∧
    (∀ (mw : Option Mw) (k v : List Nat),
      writeLine mw CommentLineTag k v =
        CommentLineTag :: writeRawBytes k v ++ [10]) ∧
    (∀ (mw : Option Mw) (payload : List Nat),
      processLineBytes mw (CommentLineTag :: payload) =
        (getKV payload).map fun kv => .ok (CommentLineTag, kv.1, kv.2)) := by
  refine ⟨?_, ?_, ?_, ?_⟩
  · intro tid c ls
    simp [runProcess, Match.Filter, processLine]
  · intro pt fe c
    rfl
  · intro mw k v
    cases mw <;> rfl
  · intro mw payload
    rfl

/-- A `breakOnMatch` scan from PreMatch over lines that never carry the
anchor id completes the file with the filter still PreMatch. -/
theorem seekScan_preMatch_nomatch (tid : List Nat) (lines : List Line)
    (hv : ∀ l ∈ lines, l.valid = true)
    (hm : ∀ l ∈ lines, l.isAnchor = true → l.key ≠ tid) :
    seekScan ⟨tid, .preMatch⟩ lines = (⟨tid, .preMatch⟩, none, none) := by
  induction lines with
  | nil => rfl
  | cons l ls ih =>
      have hvl := hv l (by simp)
      have hml := hm l (by simp)
      have htl : ∀ l' ∈ ls, l'.valid = true := fun l' h => hv l' (by simp [h])
      have htm : ∀ l' ∈ ls, l'.isAnchor = true → l'.key ≠ tid :=
        fun l' h => hm l' (by simp [h])
      cases l with
      | txnL k =>
          have : tid ≠ k := fun h => hml rfl h.symm
          simp [seekScan, Match.Filter, this, ih htl htm]
      | replayL k =>
          have : tid ≠ k := fun h => hml rfl h.symm
          simp [seekScan, Match.Filter, this, ih htl htm]
      | commentL k => simp [seekScan, Match.Filter, ih htl htm]
      | putL k v => simp [seekScan, Match.Filter, ih htl htm]
      | delL k => simp [seekScan, Match.Filter, ih htl htm]
      | badL t => simp [Line.valid] at hvl

/-- C8 (counterexample): a nonempty `tid` absent from both files need not
fail with `ErrInvalidTxn`.  With active file
`[Transaction [3], Put, Transaction [4]]`, last txn `[4]`, and the foreign
id `[5]` whose embedded time sorts after `[3]`'s, `isInCurrent` reports the
id as belonging to the current file, the archive is skipped, and the
current-file scan fails with `ErrNoTxn` instead. -/
theorem export_absent_tid_noTxn :
    exportGo (fun b => b.head?) [] [.txnL [3], .putL [7] [8], .txnL [4]]
        [4] false [5] = (.error .noTxn, []) ∧
    (exportGo (fun b => b.head?) [] [.txnL [3], .putL [7] [8], .txnL [4]]
        [4] false [5]).1 ≠ .error .invalidTxn := by
  constructor <;> decide

/-- C8 (amended): with a nonempty `tid` different from the last-txn id,
`Export` fails with `ErrInvalidTxn` when `tid` is not classified as in the
current file and no Transaction/Replay line of the archive carries it
(nothing is written); when `tid` is classified as in the current file by
`isInCurrent` but no Transaction/Replay line of the active file carries it,
`Export` fails with `ErrNoTxn` instead (nothing is written). -/
theorem export_unmatched_tid (pt : List Nat → Option Nat)
    (archiveL activeL : List Line) (ltxn txnID : List Nat)
    (htid : txnID ≠ []) (hne : txnID ≠ ltxn) :
    (¬isInCurrent pt activeL txnID = true →
      (∀ l ∈ archiveL, l.valid = true) →
      (∀ l ∈ archiveL, l.isAnchor = true → l.key ≠ txnID) →
      exportGo pt archiveL activeL ltxn false txnID =
        (.error .invalidTxn, [])) ∧
    (isInCurrent pt activeL txnID = true →
      (∀ l ∈ activeL, l.valid = true) →
      (∀ l ∈ activeL, l.isAnchor = true → l.key ≠ txnID) →
      exportGo pt archiveL activeL ltxn false txnID =
        (.error .noTxn, [])) := by
  have hnm : NewMatch txnID = ⟨txnID, .preMatch⟩ := by simp [NewMatch, htid]
  have hfrom : ∀ lines : List Line, (∀ l ∈ lines, l.valid = true) →
      (∀ l ∈ lines, l.isAnchor = true → l.key ≠ txnID) →
      exportFrom ⟨txnID, .preMatch⟩ (lastTxnGo ltxn false) lines =
        (⟨txnID, .preMatch⟩, .error .noTxn) := by
    intro lines hv hm
    have hseek := seekScan_preMatch_nomatch txnID lines hv hm
    show exportFrom ⟨txnID, .preMatch⟩ (.ok ltxn) lines = _
    rw [exportFrom]
    rw [if_neg (show ¬ltxn = Match.tid ⟨txnID, .preMatch⟩ from
      fun h => hne h.symm)]
    rw [seekToTransaction, if_neg (by simp), hseek]
    simp
  constructor
  · intro hcur hv hm
    rw [exportGo, if_neg (by simp [hne]), if_pos (by simp [hcur]), hnm,
      exportArchive, hfrom archiveL hv hm]
  · intro hcur hv hm
    rw [exportGo, if_neg (by simp [hne]),
      if_neg (by simp [htid, hcur]), hnm, hfrom activeL hv hm]

/-- Witness for `export_unmatched_tid`: id `[5]` against a log with active
transactions `[3]` and `[4]`; the first conjunct is exercised with a parse
function that rejects `[5]` (so `isInCurrent` is false and the archive
decides), the second with the first-byte parse function. -/
theorem export_unmatched_tid_witness :
    (([5] : List Nat) ≠ [] ∧ ([5] : List Nat) ≠ [4]) ∧
    exportGo (fun b => if b = [5] then none else b.head?)
        [.txnL [2]] [.txnL [3], .txnL [4]] [4] false [5] =
      (.error .invalidTxn, []) ∧
    exportGo (fun b => b.head?) [.txnL [2]] [.txnL [3], .txnL [4]]
        [4] false [5] = (.error .noTxn, []) := by
  refine ⟨⟨by decide, by decide⟩, ?_, ?_⟩
  · exact (export_unmatched_tid (fun b => if b = [5] then none else b.head?)
      [.txnL [2]] [.txnL [3], .txnL [4]] [4] [5] (by decide) (by decide)).1
      (by decide) (by decide)
      (by intro l hl ha
          fin_cases hl
          simp_all [Line.key])
  · exact (export_unmatched_tid (fun b => b.head?)
      [.txnL [2]] [.txnL [3], .txnL [4]] [4] [5] (by decide) (by decide)).2
      (by decide) (by decide)
      (by intro l hl ha
          fin_cases hl <;> simp_all [Line.key])

/-- Witness for `match_filter_anchors`: anchor `tid = [1]`, a preceding
transaction `[0]` with a Put, the anchored transaction's own Put/Delete
lines, and a following transaction `[2]` with one Put. -/
theorem match_filter_anchors_witness :
    (([1] : List Nat) ≠ []) ∧
    runMatch (NewMatch [1])
        ([Line.txnL [0], Line.putL [5] [6]] ++ Line.txnL [1] ::
          [Line.putL [7] [8], Line.delL [9]] ++ Line.txnL [2] ::
          [Line.putL [3] [4]]) =
      ([Line.txnL [2], Line.putL [3] [4]], ⟨[1], .postMatch⟩, none) :=
  ⟨by decide,
    (match_filter_anchors [1] [Line.txnL [0], Line.putL [5] [6]]
      [Line.putL [7] [8], Line.delL [9]] [Line.putL [3] [4]]
      (Line.txnL [2]) (by decide) (by decide)
      (by intro l hl ha
          fin_cases hl <;> simp_all [Line.isAnchor, Line.key])
      (by decide) (by decide) (by decide)).2.1⟩

/-! ## Anchoring at the current last transaction (C7) -/

/-- A `txnForEacher` in PreMatch with no open aggregate consumes lines
silently as long as no Transaction/Replay line carries the target id. -/
theorem runTxnFE_preMatch_skip (pt : List Nat → Option Nat) (tid : List Nat)
    (pre rest : List Line) (hv : ∀ l ∈ pre, l.valid = true)
    (hm : ∀ l ∈ pre, l.isAnchor = true → l.key ≠ tid) :
    runTxnFE pt ⟨tid, none, .preMatch⟩ (pre ++ rest) =
      runTxnFE pt ⟨tid, none, .preMatch⟩ rest := by
  induction pre with
  | nil => rfl
  | cons l pre ih =>
      have hvl := hv l (by simp)
      have hml := hm l (by simp)
      have htl : ∀ l' ∈ pre, l'.valid = true := fun l' h => hv l' (by simp [h])
      have htm : ∀ l' ∈ pre, l'.isAnchor = true → l'.key ≠ tid :=
        fun l' h => hm l' (by simp [h])
      cases l with
      | txnL k =>
          have : tid ≠ k := fun h => hml rfl h.symm
          simp [runTxnFE, txnProcessLine, TxnFE.flush, this, ih htl htm]
      | replayL k =>
          have : tid ≠ k := fun h => hml rfl h.symm
          simp [runTxnFE, txnProcessLine, TxnFE.flush, this, ih htl htm]
      | commentL k => simp [runTxnFE, txnProcessLine, ih htl htm]
      | putL k v => simp [runTxnFE, txnProcessLine, ih htl htm]
      | delL k => simp [runTxnFE, txnProcessLine, ih htl htm]
      | badL t => simp [Line.valid] at hvl

/-- A `txnForEacher` in the Match state with no open aggregate delivers
nothing over lines that contain no Transaction/Replay line. -/
theorem runTxnFE_matchSt_skip (pt : List Nat → Option Nat) (tid : List Nat)
    (post : List Line) (hv : ∀ l ∈ post, l.valid = true)
    (ha : ∀ l ∈ post, l.isAnchor = false) :
    runTxnFE pt ⟨tid, none, .matchSt⟩ post = (⟨tid, none, .matchSt⟩, [], none) := by
  induction post with
  | nil => rfl
  | cons l post ih =>
      have hvl := hv l (by simp)
      have hal := ha l (by simp)
      have htl : ∀ l' ∈ post, l'.valid = true := fun l' h => hv l' (by simp [h])
      have hta : ∀ l' ∈ post, l'.isAnchor = false := fun l' h => ha l' (by simp [h])
      cases l with
      | txnL k => simp [Line.isAnchor] at hal
      | replayL k => simp [Line.isAnchor] at hal
      | commentL k => simp [runTxnFE, txnProcessLine, ih htl hta]
      | putL k v => simp [runTxnFE, txnProcessLine, ih htl hta]
      | delL k => simp [runTxnFE, txnProcessLine, ih htl hta]
      | badL t => simp [Line.valid] at hvl

/-- C7 (counterexample): an iteration anchored at the current last-txn id
does not fail with `ErrNoTxn`.  On a log whose active file holds the single
transaction `[1]` and whose last-txn cell is `[1]`, `ForEach([1], …)` takes
`Filter`'s silent-no-op branch and returns a nil error after delivering
nothing. -/
theorem forEach_last_txn_nil_error :
    forEachGo (fun b => b.head?) [] [.txnL [1]] [1] false [1] true =
      ([], none) ∧
    (forEachGo (fun b => b.head?) [] [.txnL [1]] [1] false [1] true).2 ≠
      some .noTxn := by
  constructor <;> decide

/-- C7 (amended): with the anchor `t` equal to the nonempty current
last-txn id, `Export(t, w)` fails with `ErrNoTxn` having written nothing;
`ForEach` and `ForEachRaw` anchored at `t` resolve to silent no-ops: they
deliver nothing and return a nil error (the `Filter` shortcut); and
`ForEachTxn` anchored at `t` — when `t` is the last transaction of the
active file — delivers nothing and returns a nil error as well. -/
theorem anchored_at_last_txn (pt : List Nat → Option Nat)
    (archiveL activeL pre post : List Line) (x : Nat) (xs : List Nat)
    (archiveFlag : Bool) (t : List Nat) (ht : t ≠ [])
    (hpreV : ∀ l ∈ pre, l.valid = true)
    (hpreM : ∀ l ∈ pre, l.isAnchor = true → l.key ≠ t)
    (hpostV : ∀ l ∈ post, l.valid = true)
    (hpostA : ∀ l ∈ post, l.isAnchor = false) :
    exportGo pt archiveL activeL (x :: xs) false (x :: xs) =
      (.error .noTxn, []) ∧
    forEachGo pt archiveL activeL (x :: xs) false (x :: xs) archiveFlag =
      ([], none) ∧
    forEachRawGo pt archiveL activeL (x :: xs) false (x :: xs) archiveFlag =
      ([], none) ∧
    forEachTxnGo pt archiveL (pre ++ .txnL t :: post) false t false =
      ([], none) := by
  refine ⟨by simp [exportGo], by simp [forEachGo, mrTFilter],
    by simp [forEachRawGo, mrTFilter], ?_⟩
  have h0 : newTxnForEacher t = ⟨t, none, .preMatch⟩ := by
    simp [newTxnForEacher, ht]
  rw [forEachTxnGo]
  simp only [if_neg (Bool.false_ne_true), Bool.false_and, if_neg (by simp :
    ¬(false = true ∧ ¬isInCurrent pt (pre ++ .txnL t :: post) t = true)), h0]
  rw [runTxnFE_preMatch_skip pt t pre _ hpreV hpreM]
  have hstep : runTxnFE pt ⟨t, none, .preMatch⟩ (Line.txnL t :: post) =
      runTxnFE pt ⟨t, none, .matchSt⟩ post := by
    simp [runTxnFE, txnProcessLine, TxnFE.flush]
  rw [hstep, runTxnFE_matchSt_skip pt t post hpostV hpostA]
  rfl

/-- Witness for `anchored_at_last_txn`: last-txn id `[2]`, active file
`[Transaction [1], Put, Transaction [2], Put]`. -/
theorem anchored_at_last_txn_witness :
    (([2] : List Nat) ≠ []) ∧
    exportGo (fun b => b.head?) [] [.txnL [1], .putL [5] [6], .txnL [2],
        .putL [7] [8]] [2] false [2] = (.error .noTxn, []) ∧
    forEachGo (fun b => b.head?) [] [.txnL [1], .putL [5] [6], .txnL [2],
        .putL [7] [8]] [2] false [2] true = ([], none) ∧
    forEachTxnGo (fun b => b.head?) []
        ([.txnL [1], .putL [5] [6]] ++ .txnL [2] :: [.putL [7] [8]])
        false [2] false = ([], none) := by
  have h := anchored_at_last_txn (fun b => b.head?) []
    [.txnL [1], .putL [5] [6], .txnL [2], .putL [7] [8]]
    [.txnL [1], .putL [5] [6]] [.putL [7] [8]] 2 [] true [2]
    (by decide) (by decide)
    (by intro l hl ha
        fin_cases hl <;> simp_all [Line.key])
    (by decide) (by decide)
  exact ⟨by decide, h.1, h.2.1, h.2.2.2⟩

theorem le64_inj (a b : Nat) (ha : a < 2 ^ 64) (hb : b < 2 ^ 64)
    (h : le64 a = le64 b) : a = b := by
  rw [← de64_le64 a ha, ← de64_le64 b hb, h]

/-- C5: if MAC verification of the imported stream fails, `Import` returns
the verification error and the active file is byte-for-byte unchanged (the
payload is appended only after verification succeeds); and flipping any
single byte of a stream that verifies yields a stream whose verification
fails, so importing it is rejected with the active file unchanged. -/
theorem import_mac_guard (mw : Option Mw) (token active : List Nat) :
    (∀ stream : List Nat, parseWithToken token stream = none →
      importGo mw token active stream = (.error .macMismatch, active, [])) ∧
    (∀ (u w : List Nat) (c b : Nat), c < 256 → b < 256 → c ≠ b →
      parseWithToken token (u ++ c :: w) ≠ none →
      parseWithToken token (u ++ b :: w) = none ∧
      importGo mw token active (u ++ b :: w) =
        (.error .macMismatch, active, [])) := by
  have hpart1 : ∀ stream : List Nat, parseWithToken token stream = none →
      importGo mw token active stream = (.error .macMismatch, active, []) := by
    intro stream h
    rw [importGo, h]
  refine ⟨hpart1, ?_⟩
  intro u w c b hc hb hne hok
  have hlc : (u ++ c :: w).length = u.length + (w.length + 1) := by simp
  have hlb : (u ++ b :: w).length = u.length + (w.length + 1) := by simp
  have h8 : ¬(u ++ c :: w).length < 8 := by
    intro h
    exact hok (by rw [parseWithToken, if_pos h])
  have htag : (u ++ c :: w).drop ((u ++ c :: w).length - 8) =
      macTag token ((u ++ c :: w).take ((u ++ c :: w).length - 8)) := by
    by_contra h
    exact hok (by rw [parseWithToken, if_neg h8, if_neg h])
  have hMpos : 0 < 2 ^ 64 := by positivity
  have hparse : parseWithToken token (u ++ b :: w) = none := by
    rw [parseWithToken, if_neg (by omega)]
    rw [if_neg ?hL]
    case hL =>
      intro hbad
      rw [hlb] at hbad
      rw [hlc] at htag
      rcases lt_or_le u.length (u.length + (w.length + 1) - 8) with hcase | hcase
      · -- flipped byte sits in the payload: the recomputed tag changes
        have htake : ∀ x : Nat, (u ++ x :: w).take (u.length + (w.length + 1) - 8) =
            u ++ x :: w.take (u.length + (w.length + 1) - 8 - u.length - 1) := by
          intro x
          rw [List.take_append_eq_append_take,
            List.take_of_length_le (le_of_lt hcase)]
          have hsucc : u.length + (w.length + 1) - 8 - u.length =
              (u.length + (w.length + 1) - 8 - u.length - 1) + 1 := by omega
          rw [hsucc, List.take_succ_cons]
          simp
        have hdrop : ∀ x : Nat, (u ++ x :: w).drop (u.length + (w.length + 1) - 8) =
            w.drop (u.length + (w.length + 1) - 8 - u.length - 1) := by
          intro x
          rw [List.drop_append_eq_append_drop,
            List.drop_eq_nil_of_le (le_of_lt hcase), List.nil_append]
          have hsucc : u.length + (w.length + 1) - 8 - u.length =
              (u.length + (w.length + 1) - 8 - u.length - 1) + 1 := by omega
          rw [hsucc, List.drop_succ_cons]
          simp
        rw [htake b, hdrop b] at hbad
        rw [htake c, hdrop c] at htag
        have hmac : macTag token
            (u ++ b :: w.take (u.length + (w.length + 1) - 8 - u.length - 1)) =
            macTag token
            (u ++ c :: w.take (u.length + (w.length + 1) - 8 - u.length - 1)) := by
          rw [← hbad, htag]
        have hsum := le64_inj _ _ (Nat.mod_lt _ hMpos) (Nat.mod_lt _ hMpos) hmac
        simp only [List.sum_append, List.sum_cons] at hsum
        omega
      · -- flipped byte sits in the tag: the stored tag changes
        have htake : ∀ x : Nat, (u ++ x :: w).take (u.length + (w.length + 1) - 8) =
            u.take (u.length + (w.length + 1) - 8) := by
          intro x
          rw [List.take_append_eq_append_take]
          have : u.length + (w.length + 1) - 8 - u.length = 0 := by omega
          rw [this, List.take_zero, List.append_nil]
        have hdrop : ∀ x : Nat, (u ++ x :: w).drop (u.length + (w.length + 1) - 8) =
            u.drop (u.length + (w.length + 1) - 8) ++ x :: w := by
          intro x
          rw [List.drop_append_eq_append_drop]
          have : u.length + (w.length + 1) - 8 - u.length = 0 := by omega
          rw [this, List.drop_zero]
        rw [htake b, hdrop b] at hbad
        rw [htake c, hdrop c] at htag
        have : b = c := by
          have h2 := hbad.trans htag.symm
          exact (List.cons.injEq .. ▸ List.append_cancel_left h2).1
        exact hne this.symm
  exact ⟨hparse, hpart1 _ hparse⟩

/-- Witness for `import_mac_guard`: token `[1]`, payload `[4, 5]` with its
valid tag, and the flip of the payload byte `5` to `6`. -/
theorem import_mac_guard_witness :
    importGo none [1] [9] [7] = (.error .macMismatch, [9], []) ∧
    ((5 : Nat) < 256 ∧ (6 : Nat) < 256 ∧ (5 : Nat) ≠ 6 ∧
      parseWithToken [1] ([4] ++ 5 :: macTag [1] [4, 5]) ≠ none) ∧
    parseWithToken [1] ([4] ++ 6 :: macTag [1] [4, 5]) = none ∧
    importGo none [1] [9] ([4] ++ 6 :: macTag [1] [4, 5]) =
      (.error .macMismatch, [9], []) := by
  have h := import_mac_guard none [1] [9]
  have h2 := h.2 [4] (macTag [1] [4, 5]) 5 6 (by decide) (by decide)
    (by decide) (by decide)
  exact ⟨h.1 [7] (by decide), ⟨by decide, by decide, by decide, by decide⟩,
    h2.1, h2.2⟩

/-- C10 (counterexample): not every operation invoked after `Close`
returns `ErrIsClosed`: `Export` performs no closed check, and with the
target id equal to the (still populated) last-txn cell it returns
`ErrNoTxn` on a closed log. -/
theorem export_after_close_not_isClosed :
    exportGo (fun x => x.head?) [] [] [1] true [1] = (.error .noTxn, []) ∧
    (exportGo (fun x => x.head?) [] [] [1] true [1]).1 ≠
      .error .isClosed := by
  constructor <;> decide

/-- C10 (amended): `Close` is idempotent via a one-shot flag (the second
call returns `ErrIsClosed`), and `Txn`, `Comment`, `Filter` (hence
`ForEach`/`ForEachRaw`), `ForEachTxn`, `Archive` and `LastTxn` all return
`ErrIsClosed` once the flag is set; `Export` (and `Import`) perform no
closed check — `Export(t, w)` on a closed log with `t` equal to the
last-txn id still returns `ErrNoTxn`. -/
theorem close_one_shot :
    closeGo true = (.error .isClosed, true) ∧
    closeGo false = (.ok (), true) ∧
    (∀ (mw : Option Mw) (active ltxn txnID : List Nat) (ops : List TxnOp)
      (fnErr : Option GoErr),
      txnGo mw active ltxn true txnID ops fnErr =
        (.error .isClosed, active, ltxn)) ∧
    (∀ (mw : Option Mw) (active b : List Nat),
      commentGo mw active true b = (.error .isClosed, active)) ∧
    (∀ (pt : List Nat → Option Nat) (aL acL : List Line)
      (ltxn txnID : List Nat) (aF : Bool),
      forEachGo pt aL acL ltxn true txnID aF = ([], some .isClosed) ∧
      forEachRawGo pt aL acL ltxn true txnID aF = ([], some .isClosed)) ∧
    (∀ (pt : List Nat → Option Nat) (aL acL : List Line) (txnID : List Nat)
      (aF : Bool),
      forEachTxnGo pt aL acL true txnID aF = ([], some .isClosed)) ∧
    (∀ (aL acL : List Line) (ltxn : List Nat) (ops : List TxnOp)
      (perr : Option GoErr),
      archiveGo aL acL ltxn true ops perr = (.error .isClosed, aL, acL)) ∧
    (∀ ltxn : List Nat, lastTxnGo ltxn true = .error .isClosed) ∧
    (∀ (pt : List Nat → Option Nat) (aL acL : List Line) (x : Nat)
      (xs : List Nat),
      exportGo pt aL acL (x :: xs) true (x :: xs) = (.error .noTxn, [])) := by
  refine ⟨rfl, rfl, fun _ _ _ _ _ _ => rfl, fun _ _ _ => rfl,
    fun _ _ _ _ _ _ => ⟨rfl, rfl⟩, fun _ _ _ _ _ => rfl,
    fun _ _ _ _ _ => rfl, fun _ => rfl, fun pt aL acL x xs => by
      simp [exportGo]⟩

end MrT
